import Mathlib

/-!
Shallow embedding of the smart-playlist core of `mpdspl.py`: the rule
grammar (`RuleFactory.getRule`), the four rule variants (`RegexRule`,
`NumberRule`, `TimeDeltaRule`, `TimeStampRule`), the track model
(`Track.__init__`, `Track.__cmp__`) and the playlist evaluator
(`Playlist.findMatchingTracks`).

Python-library calls that depend on the process environment (the `re`
module's `search`, `time.mktime` which converts a broken-down local time to
an epoch value, `datetime.datetime.fromtimestamp` which converts an epoch
value to a naive local datetime, and `datetime.datetime.now`) are modelled
as fields of a `PyEnv` parameter record.  Python exceptions are modelled
with `Except PyError`.  Python `float` values are modelled as rationals
(the claims only involve values that are exactly representable; the
`inf`/`nan` spellings accepted by `float()` have no rational value and are
not modelled).
-/

/-- Python exceptions raised by the modelled code paths. `custom` is the
script's own `CustomException`. -/
inductive PyError where
  | custom (msg : String)
  | keyError (k : String)
  | valueError
  | typeError
  | attributeError
  deriving DecidableEq, Repr

/-- The `KEYWORDS` table (mpdspl.py:35-49): short rule code ↦ canonical
track-attribute name (the human description column is irrelevant to the
semantics and dropped). -/
def KEYWORDS : List (String × String) :=
  [("ar", "Artist"), ("al", "Album"), ("ti", "Title"), ("tn", "Track"),
   ("ge", "Genre"), ("ye", "Date"), ("le", "Time"), ("fp", "file"),
   ("fn", "key"), ("mt", "mtime"), ("ra", "Rating"), ("raar", "RatingAr"),
   ("raal", "RatingAl"), ("rag", "RatingGe"), ("pc", "PlayCount")]

/-- Python 2 `str.lower()` (ASCII): lowercase character by character.
(`Char.toLower` only maps `A`–`Z`, matching the default C locale.) -/
def lowerStr (s : String) : String := String.mk (s.toList.map Char.toLower)

/-- Byte-wise comparison of Python 2 `cmp` on (ASCII) strings:
`charListLe a b` iff `a ≤ b` lexicographically. -/
def charListLe : List Char → List Char → Bool
  | [], _ => true
  | _ :: _, [] => false
  | a :: as, b :: bs => if a = b then charListLe as bs else decide (a < b)

/-- Key resolution of `AbstractRule.__init__` (mpdspl.py:56-61): a short
code maps to its canonical name; a (case-insensitive) canonical name maps
to its lowercased spelling; anything else is unknown. -/
def resolveKey (key : String) : Option String :=
  match KEYWORDS.find? (fun p => p.1 == lowerStr key) with
  | some p => some p.2
  | none =>
      if KEYWORDS.any (fun p => lowerStr p.2 == lowerStr key) then some (lowerStr key)
      else none

/-- Python regex `\w` without `re.UNICODE`: `[a-zA-Z0-9_]`. -/
def wordChar (c : Char) : Bool := c.isAlpha || c.isDigit || c == '_'

/-- Python regex `\s`: `[ \t\n\r\f\v]`; also the characters stripped by
`float()`. -/
def isSpaceChar (c : Char) : Bool :=
  c == ' ' || c == '\t' || c == '\n' || c == '\r' || c == '\x0b' || c == '\x0c'

/-- Numeric value of a decimal digit character. -/
def digitVal (c : Char) : Nat := c.toNat - '0'.toNat

/-- Value of a big-endian list of decimal digit characters. -/
def digitsToNat (l : List Char) : Nat :=
  l.foldl (fun n c => 10 * n + digitVal c) 0

/-- Python `float(s)` on a string, as an exact rational: strip whitespace,
optional sign, decimal digits with an optional fraction part, optional
decimal exponent; `none` models the `ValueError` raised otherwise.
(`inf`/`nan` spellings are not modelled, see the header.) -/
def parseFloat (s : String) : Option ℚ :=
  let l := s.toList
  let l := ((l.dropWhile isSpaceChar).reverse.dropWhile isSpaceChar).reverse
  let sl : Int × List Char :=
    match l with
    | '+' :: t => (1, t)
    | '-' :: t => (-1, t)
    | t => (1, t)
  let ip := sl.2.takeWhile Char.isDigit
  let l1 := sl.2.dropWhile Char.isDigit
  let fl : List Char × List Char :=
    match l1 with
    | '.' :: t => (t.takeWhile Char.isDigit, t.dropWhile Char.isDigit)
    | t => ([], t)
  if ip.isEmpty && fl.1.isEmpty then none
  else
    let mant : Int := sl.1 * (digitsToNat (ip ++ fl.1) : Int)
    let fracLen := fl.1.length
    match fl.2 with
    | [] => some (mkRat mant (10 ^ fracLen))
    | e :: t =>
      if e == 'e' || e == 'E' then
        let et : Int × List Char :=
          match t with
          | '+' :: t2 => (1, t2)
          | '-' :: t2 => (-1, t2)
          | t2 => (1, t2)
        let ed := et.2.takeWhile Char.isDigit
        let rest := et.2.dropWhile Char.isDigit
        if ed.isEmpty || !rest.isEmpty then none
        else
          let ex : Int := et.1 * (digitsToNat ed : Int) - (fracLen : Int)
          if 0 ≤ ex then some (mkRat (mant * 10 ^ ex.toNat) 1)
          else some (mkRat mant (10 ^ (-ex).toNat))
      else none

/-- A proleptic-Gregorian calendar date, as in a `time.struct_time` /
`datetime` with the clock fields at midnight. -/
structure Date where
  year : Int
  month : Nat
  day : Nat
  deriving DecidableEq, Repr

/-- Year is a leap year (Gregorian rule). -/
def isLeap (y : Int) : Bool := y % 4 == 0 && (y % 100 != 0 || y % 400 == 0)

/-- Number of days in a month. -/
def daysInMonth (y : Int) (m : Nat) : Nat :=
  if m = 2 then (if isLeap y then 29 else 28)
  else if m = 4 ∨ m = 6 ∨ m = 9 ∨ m = 11 then 30
  else 31

/-- The date is a genuine calendar date. -/
def ValidDate (dt : Date) : Prop :=
  1 ≤ dt.month ∧ dt.month ≤ 12 ∧ 1 ≤ dt.day ∧ dt.day ≤ daysInMonth dt.year dt.month

instance (dt : Date) : Decidable (ValidDate dt) := by unfold ValidDate; infer_instance

/-- Strict lexicographic order on dates. -/
def dateLt (a b : Date) : Prop :=
  a.year < b.year ∨ (a.year = b.year ∧
    (a.month < b.month ∨ (a.month = b.month ∧ a.day < b.day)))

instance (a b : Date) : Decidable (dateLt a b) := by unfold dateLt; infer_instance

/-- Days since 1970-01-01 of a civil date (the standard era-based
conversion used by C time libraries). -/
def daysFromCivil (dt : Date) : Int :=
  let y : Int := if dt.month ≤ 2 then dt.year - 1 else dt.year
  let era : Int := Int.fdiv y 400
  let yoe : Nat := (y - era * 400).toNat
  let mp : Nat := (dt.month + 9) % 12
  let doy : Nat := (153 * mp + 2) / 5 + dt.day - 1
  let doe : Nat := yoe * 365 + yoe / 4 - yoe / 100 + doy
  era * 146097 + (doe : Int) - 719468

/-- Civil date of a days-since-1970-01-01 count: the inverse conversion,
modelling how `time.gmtime` computes the UTC calendar fields of an epoch
value. -/
def civilFromDays (z : Int) : Date :=
  let za : Int := z + 719468
  let era : Int := Int.fdiv za 146097
  let doe : Nat := (za - era * 146097).toNat
  let yoe : Nat := (doe - doe / 1460 + doe / 36524 - doe / 146096) / 365
  let doy : Nat := doe - (365 * yoe + yoe / 4 - yoe / 100)
  let mp : Nat := (5 * doy + 2) / 153
  let d : Nat := doy - (153 * mp + 2) / 5 + 1
  let m : Nat := if mp < 10 then mp + 3 else mp - 9
  ⟨(yoe : Int) + era * 400 + (if m ≤ 2 then 1 else 0), m, d⟩

/-- CPython `strptime` field `%m` (`1[0-2]|0[1-9]|[1-9]`): month number and
remaining input. -/
def parseMonth : List Char → Option (Nat × List Char)
  | '1' :: c :: t =>
      if '0' ≤ c ∧ c ≤ '2' then some (10 + digitVal c, t) else some (1, c :: t)
  | '0' :: c :: t =>
      if '1' ≤ c ∧ c ≤ '9' then some (digitVal c, t) else none
  | c :: t => if '1' ≤ c ∧ c ≤ '9' then some (digitVal c, t) else none
  | [] => none

/-- CPython `strptime` field `%d` (`3[01]|[12]\d|0[1-9]|[1-9]`). -/
def parseDay : List Char → Option (Nat × List Char)
  | '3' :: c :: t =>
      if c = '0' ∨ c = '1' then some (30 + digitVal c, t) else some (3, c :: t)
  | '0' :: c :: t =>
      if '1' ≤ c ∧ c ≤ '9' then some (digitVal c, t) else none
  | c1 :: c2 :: t =>
      if (c1 = '1' ∨ c1 = '2') ∧ c2.isDigit then
        some (10 * digitVal c1 + digitVal c2, t)
      else if '1' ≤ c1 ∧ c1 ≤ '9' then some (digitVal c1, c2 :: t)
      else none
  | [c] => if '1' ≤ c ∧ c ≤ '9' then some (digitVal c, []) else none
  | [] => none

/-- CPython `strptime` field `%H` (`2[0-3]|[0-1]\d|\d`). -/
def parseHour : List Char → Option (Nat × List Char)
  | '2' :: c :: t =>
      if '0' ≤ c ∧ c ≤ '3' then some (20 + digitVal c, t) else some (2, c :: t)
  | c1 :: c2 :: t =>
      if (c1 = '0' ∨ c1 = '1') ∧ c2.isDigit then
        some (10 * digitVal c1 + digitVal c2, t)
      else if c1.isDigit then some (digitVal c1, c2 :: t)
      else none
  | [c] => if c.isDigit then some (digitVal c, []) else none
  | [] => none

/-- CPython `strptime` field `%M` (`[0-5]\d|\d`). -/
def parseMinute : List Char → Option (Nat × List Char)
  | c1 :: c2 :: t =>
      if ('0' ≤ c1 ∧ c1 ≤ '5') ∧ c2.isDigit then
        some (10 * digitVal c1 + digitVal c2, t)
      else if c1.isDigit then some (digitVal c1, c2 :: t)
      else none
  | [c] => if c.isDigit then some (digitVal c, []) else none
  | [] => none

/-- CPython `strptime` field `%S` (`6[0-1]|[0-5]\d|\d`). -/
def parseSec : List Char → Option (Nat × List Char)
  | '6' :: c :: t =>
      if c = '0' ∨ c = '1' then some (60 + digitVal c, t) else some (6, c :: t)
  | l => parseMinute l

/-- `time.strptime(value, '%Y-%m-%d')` (TimeStampRule.TIME_STAMP_FORMAT,
mpdspl.py:181,187): exactly four year digits, `%m`, `%d`, and the whole
string must be consumed.  `time.strptime` does not cross-validate the day
against the month, so e.g. `"2010-02-31"` parses. -/
def parseDateYMD (s : String) : Option Date :=
  match s.toList with
  | y1 :: y2 :: y3 :: y4 :: '-' :: r1 =>
      if y1.isDigit ∧ y2.isDigit ∧ y3.isDigit ∧ y4.isDigit then
        match parseMonth r1 with
        | some (m, '-' :: r2) =>
            match parseDay r2 with
            | some (d, []) => some ⟨(digitsToNat [y1, y2, y3, y4] : Int), m, d⟩
            | _ => none
        | _ => none
      else none
  | _ => none

/-- `datetime.datetime.strptime(value, '%Y-%m-%dT%H:%M:%SZ')`
(mpdspl.py:164), returning the naive datetime as rational seconds since
1970-01-01 00:00:00 of the parsed clock fields.  Unlike `time.strptime`,
the `datetime` constructor validates the day against the month and rejects
the leap-second values 60/61, and requires `year ≥ 1`. -/
def parseISO (s : String) : Option ℚ :=
  match s.toList with
  | y1 :: y2 :: y3 :: y4 :: '-' :: r1 =>
      if y1.isDigit ∧ y2.isDigit ∧ y3.isDigit ∧ y4.isDigit then
        let y : Int := (digitsToNat [y1, y2, y3, y4] : Int)
        match parseMonth r1 with
        | some (mo, '-' :: r2) =>
            match parseDay r2 with
            | some (d, 'T' :: r3) =>
                match parseHour r3 with
                | some (h, ':' :: r4) =>
                    match parseMinute r4 with
                    | some (mi, ':' :: r5) =>
                        match parseSec r5 with
                        | some (sec, ['Z']) =>
                            if 1 ≤ y ∧ d ≤ daysInMonth y mo ∧ sec ≤ 59 then
                              some (mkRat (86400 * daysFromCivil ⟨y, mo, d⟩
                                    + 3600 * (h : Int) + 60 * (mi : Int) + (sec : Int)) 1)
                            else none
                        | _ => none
                    | _ => none
                | _ => none
            | _ => none
        | _ => none
      else none
  | _ => none

/-- The floor of `q / 86400`: the days-since-epoch count of the UTC day
containing epoch second `q`, as computed by `time.gmtime` (mpdspl.py:192).
`Int.fdiv` is floor division, so this is exact also for negative `q`. -/
def tsDayNumber (q : ℚ) : Int := Int.fdiv q.num (86400 * (q.den : Int))

/-- The environment-dependent Python library functions used by the script.
`reSearch pattern s flags` is the truth value of `re.search` (`flags` the
`re` bitmask).  `mktime` is `time.mktime` applied to a midnight
broken-down local time, i.e. the local-midnight epoch value of a date.
`fromtimestamp` maps an epoch value to the naive local datetime
`datetime.datetime.fromtimestamp` returns (as seconds since
1970-01-01 00:00:00 of its clock fields).  `now` is
`datetime.datetime.now()` in the same representation. -/
structure PyEnv where
  reSearch : String → String → Nat → Bool
  mktime : Date → ℚ
  fromtimestamp : ℚ → ℚ
  now : ℚ

/-- The parsed capture groups of `RuleFactory.getRule`'s regular expression
(mpdspl.py:205-208). -/
structure RawRule where
  key : List Char
  op : List Char
  delim : Char
  value : List Char
  flags : List Char
  deriving DecidableEq, Repr

/-- The delimiter character class of `RuleFactory.DELIMITER_TO_RULE`
(mpdspl.py:198-201). -/
def DELIMS : List Char := ['/', '%', '@', '#']

/-- Split a list at the LAST occurrence of `d`:
`lastSplit d l = some (v, a)` iff `l = v ++ d :: a` with `d ∉ a`. -/
def lastSplit (d : Char) : List Char → Option (List Char × List Char)
  | [] => none
  | c :: cs =>
      match lastSplit d cs with
      | some (v, a) => some (c :: v, a)
      | none => if c == d then some ([], cs) else none

/-- The greedy match of `(?P<value>.+)(?P=delimiter)` on `r`: the longest
non-empty newline-free `value` such that `r = value ++ d :: after`.  A
backtracking regex engine reaches exactly this split: `.+` consumes
maximally and then backs off to the last position followed by the
backreferenced delimiter (`.` does not match a newline). -/
def greedyClose (d : Char) (r : List Char) : Option (List Char × List Char) :=
  let valr := r.takeWhile (fun c => c != '\n')
  let rest := r.dropWhile (fun c => c != '\n')
  match lastSplit d valr with
  | some (v, a) => if v.isEmpty then none else some (v, a ++ rest)
  | none => none

/-- `re.match` of the rule grammar
`(?P<key>\w+)(?P<operator>.+?)(?P<delimiter>[/%@#])(?P<value>.+)(?P=delimiter)(?P<flags>\w+)?`
(mpdspl.py:205-208), reproducing the engine's backtracking priorities:
the greedy `\w+` key tries its longest prefix first; the lazy `.+?`
operator tries its shortest extension first; the delimiter must be one of
`/%@#`; the greedy value closes at the last later occurrence of the same
delimiter; the optional flags group then takes the following word-character
run (the regex is not anchored at the end, so trailing input is ignored). -/
def parseRaw (s : List Char) : Option RawRule :=
  let wp := (s.takeWhile wordChar).length
  ((List.range wp).map (fun i => wp - i)).findSome? fun kl =>
    let key := s.take kl
    let r1 := s.drop kl
    ((List.range r1.length).map (· + 1)).findSome? fun ol =>
      let op := r1.take ol
      if op.any (fun c => c == '\n') then none
      else
        match r1.drop ol with
        | [] => none
        | d :: r2 =>
            if DELIMS.contains d then
              match greedyClose d r2 with
              | some (v, after) => some ⟨key, op, d, v, after.takeWhile wordChar⟩
              | none => none
            else none

/-- A constructed rule.  The Python classes keep the raw operator string
and look it up in their `OPERATORS` table only at match time; value fields
hold what each `__init__` computed: `RegexRule` the pattern text and the
`re` flag bitmask, `NumberRule` the float value, `TimeDeltaRule` the
`timedelta` (in seconds) plus the captured `datetime.now()`,
`TimeStampRule` the `time.mktime` of the parsed date. -/
inductive Rule where
  | regex (key op : String) (flags : List Char) (neg : Bool)
      (pattern : String) (reFlags : Nat)
  | number (key op : String) (flags : List Char) (neg : Bool) (value : ℚ)
  | timeDelta (key op : String) (flags : List Char) (neg : Bool)
      (value : ℚ) (now : ℚ)
  | timeStamp (key op : String) (flags : List Char) (neg : Bool) (value : ℚ)
  deriving DecidableEq, Repr

/-- The resolved attribute key (`self.key`). -/
def Rule.key : Rule → String
  | .regex k _ _ _ _ _ => k
  | .number k _ _ _ _ => k
  | .timeDelta k _ _ _ _ _ => k
  | .timeStamp k _ _ _ _ => k

/-- The raw comparison-operator string (`self.operator`). -/
def Rule.op : Rule → String
  | .regex _ o _ _ _ _ => o
  | .number _ o _ _ _ => o
  | .timeDelta _ o _ _ _ _ => o
  | .timeStamp _ o _ _ _ => o

/-- `self.negate`: whether flag `n` was given (mpdspl.py:70). -/
def Rule.neg : Rule → Bool
  | .regex _ _ _ n _ _ => n
  | .number _ _ _ n _ => n
  | .timeDelta _ _ _ n _ _ => n
  | .timeStamp _ _ _ n _ => n

/-- The part of `AbstractRule.__init__` shared by every variant
(mpdspl.py:54-70): resolve the key (raising `CustomException` for an
unknown attribute), keep the flags, derive `negate`. -/
structure AbsInit where
  key : String
  flags : List Char
  neg : Bool

def abstractInit (key : String) (flags : List Char) : Except PyError AbsInit :=
  match resolveKey key with
  | none => .error (.custom s!"A track has no attribute '{key}'")
  | some k => .ok ⟨k, flags, flags.contains 'n'⟩

/-- `RegexRule.FLAGS` (mpdspl.py:95-96): `i` ↦ `re.IGNORECASE` (2),
`l` ↦ `re.LOCALE` (4); any other flag raises `KeyError` in
`RegexRule.__init__`'s bitmask loop. -/
def regexFlagBits : Char → Option Nat
  | 'i' => some 2
  | 'l' => some 4
  | _ => none

/-- `RegexRule.__init__` (mpdspl.py:98-103). -/
def regexRuleMk (key op value : String) (flags : List Char) :
    Except PyError Rule := do
  let a ← abstractInit key flags
  let bits ← flags.foldlM (fun acc c =>
      match regexFlagBits c with
      | some b => Except.ok (acc ||| b)
      | none => Except.error (.keyError (String.singleton c))) 0
  return .regex a.key op a.flags a.neg value bits

/-- `NumberRule.__init__` (mpdspl.py:120-123): `float(value)` may raise
`ValueError`. -/
def numberRuleMk (key op value : String) (flags : List Char) :
    Except PyError Rule := do
  let a ← abstractInit key flags
  match parseFloat value with
  | none => Except.error .valueError
  | some q => return .number a.key op a.flags a.neg q

/-- The keyword arguments `datetime.timedelta` accepts, as seconds
(numerator, denominator); any other unit name raises `TypeError`. -/
def timeDeltaUnitSeconds : String → Option (Nat × Nat)
  | "weeks" => some (604800, 1)
  | "days" => some (86400, 1)
  | "hours" => some (3600, 1)
  | "minutes" => some (60, 1)
  | "seconds" => some (1, 1)
  | "milliseconds" => some (1, 1000)
  | "microseconds" => some (1, 1000000)
  | _ => none

/-- `TimeDeltaRule.__init__` (mpdspl.py:144-158): `re.match` of
`(?P<number>\d+)\s*(?P<unit>[a-zA-Z]+)` (anchored at the start only),
raising `CustomException("Could not parse duration")` on failure; the unit
is lowercased and pluralized; `datetime.timedelta(**{unit: number})`
raises `TypeError` for an unknown unit; `datetime.now()` is captured. -/
def timeDeltaRuleMk (env : PyEnv) (key op value : String) (flags : List Char) :
    Except PyError Rule := do
  let a ← abstractInit key flags
  let l := value.toList
  let digits := l.takeWhile Char.isDigit
  let r1 := (l.dropWhile Char.isDigit).dropWhile isSpaceChar
  let letters := r1.takeWhile Char.isAlpha
  if digits.isEmpty || letters.isEmpty then
    Except.error (.custom "Could not parse duration")
  else
    let n := digitsToNat digits
    let unit := lowerStr (String.mk letters)
    let unit := if unit.toList.getLast? = some 's' then unit else unit ++ "s"
    match timeDeltaUnitSeconds unit with
    | none => Except.error .typeError
    | some p => return .timeDelta a.key op a.flags a.neg (mkRat (n * p.1) p.2) env.now

/-- `TimeStampRule.__init__` (mpdspl.py:183-188):
`time.mktime(time.strptime(value, '%Y-%m-%d'))`. -/
def timeStampRuleMk (env : PyEnv) (key op value : String) (flags : List Char) :
    Except PyError Rule := do
  let a ← abstractInit key flags
  match parseDateYMD value with
  | none => Except.error .valueError
  | some d => return .timeStamp a.key op a.flags a.neg (env.mktime d)

/-- `RuleFactory.getRule` (mpdspl.py:203-214): parse the rule string with
the grammar regex (raising `CustomException` if it does not match) and
dispatch on the delimiter through `DELIMITER_TO_RULE`.  `parseRaw` only
produces delimiters in `DELIMS`, so the final catch-all is unreachable. -/
def getRule (env : PyEnv) (ruleString : String) : Except PyError Rule :=
  match parseRaw ruleString.toList with
  | none => .error (.custom s!"Could not parse rule '{ruleString}'")
  | some rr =>
      let key := String.mk rr.key
      let op := String.mk rr.op
      let value := String.mk rr.value
      match rr.delim with
      | '/' => regexRuleMk key op value rr.flags
      | '%' => timeDeltaRuleMk env key op value rr.flags
      | '@' => timeStampRuleMk env key op value rr.flags
      | '#' => numberRuleMk key op value rr.flags
      | d => .error (.keyError (String.singleton d))

/-- `RegexRule.OPERATORS` (mpdspl.py:93-94): `=` is `re.search`, `!` its
negation; any other operator is a `KeyError` at lookup time. -/
def regexOpTable (search : String → String → Nat → Bool) :
    String → Option (String → String → Nat → Bool)
  | "=" => some search
  | "!" => some (fun p v f => !(search p v f))
  | _ => none

/-- `NumberRule.OPERATORS` (mpdspl.py:114-118).  Note the source binds
`'<='` to `operator.ge`, the same comparison as `'>='`. -/
def numberOpTable : String → Option (ℚ → ℚ → Bool)
  | "=" => some (fun a b => a == b)
  | "<" => some (fun a b => decide (a < b))
  | ">" => some (fun a b => decide (b < a))
  | ">=" => some (fun a b => decide (b ≤ a))
  | "<=" => some (fun a b => decide (b ≤ a))
  | _ => none

/-- `TimeDeltaRule.OPERATORS` (mpdspl.py:136-140) and
`TimeStampRule.OPERATORS` (mpdspl.py:175-179): the two classes define the
same five-entry table, with `'<='` correctly bound to `operator.le`. -/
def ordOpTable : String → Option (ℚ → ℚ → Bool)
  | "=" => some (fun a b => a == b)
  | "<" => some (fun a b => decide (a < b))
  | ">" => some (fun a b => decide (b < a))
  | ">=" => some (fun a b => decide (b ≤ a))
  | "<=" => some (fun a b => decide (a ≤ b))
  | _ => none

/-- `RegexRule.__match__` (mpdspl.py:105-107):
`self.getOperator()(self.value, str(value), self.reFlags)`; the table
lookup can raise `KeyError`. -/
def regexMatchValue (env : PyEnv) (op pattern : String) (bits : Nat)
    (attr : String) : Except PyError Bool :=
  match regexOpTable env.reSearch op with
  | none => .error (.keyError op)
  | some f => .ok (f pattern attr bits)

/-- `NumberRule.__match__` (mpdspl.py:125-128): an empty attribute is
coerced to `0` first; in `self.getOperator()(float(value), self.number)`
Python evaluates the callee before the argument, so an unknown operator's
`KeyError` precedes `float`'s `ValueError`. -/
def numberMatchValue (op : String) (num : ℚ) (attr : String) :
    Except PyError Bool :=
  match numberOpTable op with
  | none => .error (.keyError op)
  | some f =>
      if attr = "" then .ok (f 0 num)
      else
        match parseFloat attr with
        | none => .error .valueError
        | some q => .ok (f q num)

/-- `TimeDeltaRule.__match__` (mpdspl.py:160-167): an empty attribute
becomes the integer `0` (then `strptime(0, ...)` raises `TypeError`,
caught by the bare `except`, and `fromtimestamp(float(0))` is used);
otherwise the ISO parse is tried and only its failure falls back to
`fromtimestamp(float(value))` — a `ValueError` from that `float` call is
NOT caught and propagates.  The operator lookup happens after the delta is
computed. -/
def deltaMatchValue (env : PyEnv) (op : String) (dur now : ℚ)
    (attr : String) : Except PyError Bool :=
  let instant : Except PyError ℚ :=
    if attr = "" then .ok (env.fromtimestamp 0)
    else
      match parseISO attr with
      | some dt => .ok dt
      | none =>
          match parseFloat attr with
          | some x => .ok (env.fromtimestamp x)
          | none => .error .valueError
  match instant with
  | .error e => .error e
  | .ok i =>
      match ordOpTable op with
      | none => .error (.keyError op)
      | some f => .ok (f (now - i) dur)

/-- `TimeStampRule.__match__` (mpdspl.py:190-195): `float(value)` (no
empty-string coercion here, so an empty attribute raises `ValueError`),
round down to day precision via the `gmtime`/`strftime`/`strptime`
round-trip, and compare `time.mktime` of that day with the stored value. -/
def stampMatchValue (env : PyEnv) (op : String) (v : ℚ) (attr : String) :
    Except PyError Bool :=
  match parseFloat attr with
  | none => .error .valueError
  | some q =>
      let dt := civilFromDays (tsDayNumber q)
      match ordOpTable op with
      | none => .error (.keyError op)
      | some f => .ok (f (env.mktime dt) v)

/-- A track object (mpdspl.py:296-308).  `Track.__init__` first creates
one attribute per canonical `KEYWORDS` name, lowercased, set to `""`
(these are the fifteen named fields below, with `""` as default value);
further `setattr` calls with other (lowercased) names are modelled by the
`extra` association list. -/
structure Track where
  artist : String := ""
  album : String := ""
  title : String := ""
  track : String := ""
  genre : String := ""
  date : String := ""
  time : String := ""
  file : String := ""
  key : String := ""
  mtime : String := ""
  rating : String := ""
  ratingar : String := ""
  ratingal : String := ""
  ratingge : String := ""
  playcount : String := ""
  extra : List (String × String) := []
  deriving DecidableEq, Repr

/-- The freshly initialized track: every canonical attribute is `""`
(mpdspl.py:298-300). -/
def emptyTrack : Track := {}

/-- `setattr(track, k, v)` for an already-lowercased name `k`. -/
def trackSetattr (t : Track) (k v : String) : Track :=
  if k = "artist" then { t with artist := v }
  else if k = "album" then { t with album := v }
  else if k = "title" then { t with title := v }
  else if k = "track" then { t with track := v }
  else if k = "genre" then { t with genre := v }
  else if k = "date" then { t with date := v }
  else if k = "time" then { t with time := v }
  else if k = "file" then { t with file := v }
  else if k = "key" then { t with key := v }
  else if k = "mtime" then { t with mtime := v }
  else if k = "rating" then { t with rating := v }
  else if k = "ratingar" then { t with ratingar := v }
  else if k = "ratingal" then { t with ratingal := v }
  else if k = "ratingge" then { t with ratingge := v }
  else if k = "playcount" then { t with playcount := v }
  else { t with extra := (t.extra.filter (fun p => p.1 != k)) ++ [(k, v)] }

/-- `getattr(track, k)` for a lowercased name `k`; `none` models
`AttributeError`. -/
def trackGetattr (t : Track) (k : String) : Option String :=
  if k = "artist" then some t.artist
  else if k = "album" then some t.album
  else if k = "title" then some t.title
  else if k = "track" then some t.track
  else if k = "genre" then some t.genre
  else if k = "date" then some t.date
  else if k = "time" then some t.time
  else if k = "file" then some t.file
  else if k = "key" then some t.key
  else if k = "mtime" then some t.mtime
  else if k = "rating" then some t.rating
  else if k = "ratingar" then some t.ratingar
  else if k = "ratingal" then some t.ratingal
  else if k = "ratingge" then some t.ratingge
  else if k = "playcount" then some t.playcount
  else (t.extra.find? (fun p => p.1 == k)).map (fun p => p.2)

/-- A value of an MPD database entry field: the `mpd` library yields
strings, or lists of strings for repeated tags. -/
inductive PyVal where
  | str (s : String)
  | list (l : List String)
  deriving DecidableEq, Repr

/-- One iteration of the `Track.__init__` fill-in loop (mpdspl.py:303-308):
a list value is replaced by its first element (`value[0]` raises
`IndexError` on an empty list, modelled by `none`), the key
`'last-modified'` (checked before lowercasing, case-sensitively) is
renamed to `'mtime'`, and the value is stored under the lowercased key. -/
def applyField (t : Track) : String × PyVal → Option Track
  | (k, v) => do
      let s ← match v with
        | .str s => some s
        | .list [] => none
        | .list (s :: _) => some s
      let k := if k = "last-modified" then "mtime" else k
      return trackSetattr t (lowerStr k) s

/-- `Track.__init__` (mpdspl.py:296-308): start from the all-empty track
and fill in the entry's fields in iteration order. -/
def trackMk (fields : List (String × PyVal)) : Option Track :=
  fields.foldlM applyField emptyTrack

/-- The sort key of `Track.__cmp__` (mpdspl.py:310-312): Python's `cmp` on
the concatenation `artist + album + title` is byte-wise, i.e. the
lexicographic string order. -/
def sortKey (t : Track) : String := t.artist ++ t.album ++ t.title

/-- The order `self.tracks.sort()` sorts by. -/
def trackLe (a b : Track) : Prop :=
  charListLe (sortKey a).toList (sortKey b).toList = true

instance : DecidableRel trackLe := fun a b =>
  inferInstanceAs (Decidable (charListLe (sortKey a).toList (sortKey b).toList = true))

/-- `self.tracks.sort()` (mpdspl.py:269): Python's `list.sort` is a stable
sort by `Track.__cmp__`; any stable sort with respect to the same total
preorder produces the same list, so it is embedded as insertion sort, the
canonical stable sort. -/
def sortTracks (l : List Track) : List Track := List.insertionSort trackLe l

/-- The kind dispatch of `self.__match__(attr)` (mpdspl.py:81). -/
def ruleKindMatch (env : PyEnv) (r : Rule) (attr : String) : Except PyError Bool :=
  match r with
  | .regex _ op _ _ pat bits => regexMatchValue env op pat bits attr
  | .number _ op _ _ v => numberMatchValue op v attr
  | .timeDelta _ op _ _ v now => deltaMatchValue env op v now attr
  | .timeStamp _ op _ _ v => stampMatchValue env op v attr

/-- `AbstractRule.match` (mpdspl.py:78-85): fetch
`getattr(track, self.key.lower())`, run the variant's `__match__`, and
negate the result if the `n` flag was given. -/
def ruleMatch (env : PyEnv) (r : Rule) (t : Track) : Except PyError Bool :=
  match trackGetattr t (lowerStr r.key) with
  | none => .error .attributeError
  | some attr =>
      match ruleKindMatch env r attr with
      | .error e => .error e
      | .ok b => .ok (if r.neg then !b else b)

/-- The kind-specific base match of mpdspl.py:78-81 alone — attribute
fetch plus `self.__match__(attr)` — before `negate` is applied.  (The
spec's `baseMatch`.) -/
def ruleBaseMatch (env : PyEnv) (r : Rule) (t : Track) : Except PyError Bool :=
  match trackGetattr t (lowerStr r.key) with
  | none => .error .attributeError
  | some attr => ruleKindMatch env r attr

/-- The inner loop of `Playlist.findMatchingTracks` (mpdspl.py:260-264):
a track is kept iff every rule matches, with the short-circuit `break` on
the first rule that does not. -/
def matchesAll (env : PyEnv) (rules : List Rule) (t : Track) :
    Except PyError Bool :=
  match rules with
  | [] => .ok true
  | r :: rs =>
      match ruleMatch env r t with
      | .error e => .error e
      | .ok true => matchesAll env rs t
      | .ok false => .ok false

/-- The filtering loop of `Playlist.findMatchingTracks` (mpdspl.py:257-267),
keeping database iteration order. -/
def filterMatching (env : PyEnv) (rules : List Rule) :
    List Track → Except PyError (List Track)
  | [] => .ok []
  | t :: ts =>
      match matchesAll env rules t with
      | .error e => .error e
      | .ok b =>
          match filterMatching env rules ts with
          | .error e => .error e
          | .ok rest => .ok (if b then t :: rest else rest)

/-- `Playlist.findMatchingTracks` (mpdspl.py:256-270): filter the database
tracks through the ruleset, then `self.tracks.sort()`. -/
def findMatchingTracks (env : PyEnv) (rules : List Rule)
    (tracks : List Track) : Except PyError (List Track) :=
  match filterMatching env rules tracks with
  | .error e => .error e
  | .ok l => .ok (sortTracks l)

/-- A concrete environment for witnesses: `re.search` constantly false,
`time.mktime` a strictly date-monotone encoding (372·year + 31·month +
day, embedded in ℚ), `fromtimestamp` the identity, `now` the epoch. -/
def env0 : PyEnv where
  reSearch := fun _ _ _ => false
  mktime := fun dt => ((372 * dt.year + 31 * (dt.month : Int) + (dt.day : Int) : Int) : ℚ)
  fromtimestamp := fun q => q
  now := 0

/-- Shorthand for a track with only `artist`, `album`, `title` set. -/
def mkT (ar al ti : String) : Track := { artist := ar, album := al, title := ti }

/-- Shorthand for a track with only `artist` and `time` set. -/
def mkTT (ar ti : String) : Track := { artist := ar, time := ti }

theorem charListLe_refl : ∀ l : List Char, charListLe l l = true := by
  intro l
  induction l with
  | nil => rfl
  | cons a as ih => simpa [charListLe] using ih

theorem charListLe_total : ∀ as bs : List Char,
    charListLe as bs = true ∨ charListLe bs as = true := by
  intro as
  induction as with
  | nil => intro bs; left; rfl
  | cons a as ih =>
      intro bs
      cases bs with
      | nil => right; rfl
      | cons b bs =>
          by_cases hab : a = b
          · subst hab
            simpa [charListLe] using ih bs
          · rcases lt_trichotomy a b with h | h | h
            · left; simp [charListLe, hab, h]
            · exact absurd h hab
            · right; simp [charListLe, Ne.symm hab, h, not_lt_of_gt h]

theorem charListLe_trans : ∀ as bs cs : List Char,
    charListLe as bs = true → charListLe bs cs = true → charListLe as cs = true := by
  intro as
  induction as with
  | nil => intro bs cs _ _; rfl
  | cons a as ih =>
      intro bs cs h1 h2
      cases bs with
      | nil => simp [charListLe] at h1
      | cons b bs =>
          cases cs with
          | nil => simp [charListLe] at h2
          | cons c cs =>
              by_cases hab : a = b <;> by_cases hbc : b = c
              · subst hab; subst hbc
                simp only [charListLe, if_pos rfl] at h1 h2 ⊢
                exact ih bs cs h1 h2
              · subst hab
                simp only [charListLe, if_pos rfl] at h1
                simpa [charListLe, hbc] using h2
              · subst hbc
                simp only [charListLe, if_pos rfl] at h2
                simpa [charListLe, hab] using h1
              · simp only [charListLe, if_neg hab] at h1
                simp only [charListLe, if_neg hbc] at h2
                have hac : a < c := lt_trans (of_decide_eq_true h1) (of_decide_eq_true h2)
                simp [charListLe, ne_of_lt hac, hac]

instance : IsTotal Track trackLe := ⟨fun x y => charListLe_total (sortKey x).toList (sortKey y).toList⟩

instance : IsTrans Track trackLe := ⟨fun _ _ _ h h' => charListLe_trans _ _ _ h h'⟩

theorem trackLe_of_sortKey_eq {a b : Track} (h : sortKey a = sortKey b) : trackLe a b := by
  unfold trackLe
  rw [h]
  exact charListLe_refl _

theorem daysInMonth_le (y : Int) (m : Nat) : daysInMonth y m ≤ 31 := by
  unfold daysInMonth
  split_ifs <;> omega

theorem mem_sortTracks {t : Track} {l : List Track} : t ∈ sortTracks l ↔ t ∈ l :=
  (List.perm_insertionSort trackLe l).mem_iff

theorem findSome_mem {α β : Type} {f : α → Option β} {b : β} :
    ∀ {l : List α}, l.findSome? f = some b → ∃ a ∈ l, f a = some b := by
  intro l
  induction l with
  | nil => intro h; simp [List.findSome?] at h
  | cons x xs ih =>
      intro h
      cases hx : f x with
      | some y =>
          refine ⟨x, List.mem_cons_self x xs, ?_⟩
          rw [hx]
          rw [List.findSome?_cons, hx] at h
          exact h
      | none =>
          rw [List.findSome?_cons, hx] at h
          obtain ⟨a, ha, hfa⟩ := ih h
          exact ⟨a, List.mem_cons_of_mem _ ha, hfa⟩

theorem lastSplit_eq {d : Char} : ∀ {l : List Char} {v a : List Char},
    lastSplit d l = some (v, a) → l = v ++ d :: a := by
  intro l
  induction l with
  | nil => intro v a h; cases h
  | cons c cs ih =>
      intro v a h
      unfold lastSplit at h
      cases hs : lastSplit d cs with
      | some p =>
          rw [hs] at h
          cases h
          simpa using ih hs
      | none =>
          rw [hs] at h
          by_cases hc : c == d
          · rw [if_pos hc] at h
            cases h
            simp [eq_of_beq hc]
          · rw [if_neg hc] at h
            cases h

theorem greedyClose_eq {d : Char} {r v a : List Char}
    (h : greedyClose d r = some (v, a)) : r = v ++ d :: a ∧ v ≠ [] := by
  replace h : (match lastSplit d (r.takeWhile (fun c => c != '\n')) with
      | some (v', a') =>
          if v'.isEmpty then none
          else some (v', a' ++ r.dropWhile (fun c => c != '\n'))
      | none => none) = some (v, a) := h
  cases hs : lastSplit d (r.takeWhile (fun c => c != '\n')) with
  | none => rw [hs] at h; cases h
  | some p =>
      rw [hs] at h
      obtain ⟨v1, a1⟩ := p
      replace h : (if v1.isEmpty then none
          else some (v1, a1 ++ r.dropWhile (fun c => c != '\n'))) = some (v, a) := h
      by_cases he : v1.isEmpty
      · rw [if_pos he] at h; cases h
      · rw [if_neg he] at h
        have h' := Option.some.inj h
        have hv : v1 = v := congrArg Prod.fst h'
        have ha : a1 ++ r.dropWhile (fun c => c != '\n') = a := congrArg Prod.snd h'
        subst hv
        subst ha
        have hts := lastSplit_eq hs
        constructor
        · calc r = r.takeWhile (fun c => c != '\n') ++ r.dropWhile (fun c => c != '\n') :=
                (List.takeWhile_append_dropWhile _ _).symm
            _ = (v1 ++ d :: a1) ++ r.dropWhile (fun c => c != '\n') := by rw [hts]
            _ = v1 ++ d :: (a1 ++ r.dropWhile (fun c => c != '\n')) := by simp
        · simpa [List.isEmpty_iff] using he

theorem parseRaw_shape : ∀ {s : List Char} {rr : RawRule}, parseRaw s = some rr →
    rr.delim ∈ DELIMS ∧ rr.value ≠ [] ∧
    ∃ rest, s = rr.key ++ rr.op ++ rr.delim :: rr.value ++ rr.delim :: rest
      ∧ rr.flags = rest.takeWhile wordChar := by
  intro s rr h
  unfold parseRaw at h
  obtain ⟨kl, _hkl, h1⟩ := findSome_mem h
  replace h1 : (((List.range (s.drop kl).length).map (· + 1)).findSome? fun ol =>
      if ((s.drop kl).take ol).any (fun c => c == '\n') then none
      else
        match (s.drop kl).drop ol with
        | [] => none
        | d :: r2 =>
            if DELIMS.contains d then
              match greedyClose d r2 with
              | some (v, after) =>
                  some ⟨s.take kl, (s.drop kl).take ol, d, v, after.takeWhile wordChar⟩
              | none => none
            else none) = some rr := h1
  obtain ⟨ol, _hol, h2⟩ := findSome_mem h1
  replace h2 : (if ((s.drop kl).take ol).any (fun c => c == '\n') then none
      else
        match (s.drop kl).drop ol with
        | [] => none
        | d :: r2 =>
            if DELIMS.contains d then
              match greedyClose d r2 with
              | some (v, after) =>
                  some ⟨s.take kl, (s.drop kl).take ol, d, v, after.takeWhile wordChar⟩
              | none => none
            else none) = some rr := h2
  by_cases hnl : (((s.drop kl).take ol).any (fun c => c == '\n')) = true
  · rw [if_pos hnl] at h2; cases h2
  · rw [if_neg hnl] at h2
    cases hd : (s.drop kl).drop ol with
    | nil => rw [hd] at h2; cases h2
    | cons d r2 =>
        rw [hd] at h2
        replace h2 : (if DELIMS.contains d then
            match greedyClose d r2 with
            | some (v, after) =>
                some (⟨s.take kl, (s.drop kl).take ol, d, v,
                  after.takeWhile wordChar⟩ : RawRule)
            | none => none
          else none) = some rr := h2
        by_cases hdel : DELIMS.contains d
        · rw [if_pos hdel] at h2
          cases hg : greedyClose d r2 with
          | none => rw [hg] at h2; cases h2
          | some p =>
              rw [hg] at h2
              obtain ⟨v1, a1⟩ := p
              replace h2 : some (⟨s.take kl, (s.drop kl).take ol, d, v1,
                  a1.takeWhile wordChar⟩ : RawRule) = some rr := h2
              have hrr := Option.some.inj h2
              subst hrr
              obtain ⟨hr2, hv⟩ := greedyClose_eq hg
              refine ⟨?_, hv, a1, ?_, rfl⟩
              · simpa using hdel
              · calc s = s.take kl ++ s.drop kl := (List.take_append_drop _ _).symm
                  _ = s.take kl ++ ((s.drop kl).take ol ++ (s.drop kl).drop ol) := by
                        rw [List.take_append_drop ol (s.drop kl)]
                  _ = s.take kl ++ ((s.drop kl).take ol ++ (d :: r2)) := by rw [hd]
                  _ = s.take kl ++ ((s.drop kl).take ol ++ (d :: (v1 ++ d :: a1))) := by
                        rw [← hr2]
                  _ = s.take kl ++ (s.drop kl).take ol ++ d :: v1 ++ d :: a1 := by simp
        · rw [if_neg hdel] at h2; cases h2

theorem matchesAll_true_iff (env : PyEnv) : ∀ (rules : List Rule) (t : Track) (b : Bool),
    matchesAll env rules t = .ok b →
    (b = true ↔ ∀ r ∈ rules, ruleMatch env r t = .ok true) := by
  intro rules
  induction rules with
  | nil =>
      intro t b h
      replace h : (Except.ok true : Except PyError Bool) = .ok b := h
      cases h
      exact ⟨fun _ r hr => (nomatch hr), fun _ => rfl⟩
  | cons r rs ih =>
      intro t b h
      replace h : ((match ruleMatch env r t with
          | .error e => .error e
          | .ok true => matchesAll env rs t
          | .ok false => .ok false : Except PyError Bool)) = .ok b := h
      cases hm : ruleMatch env r t with
      | error e => rw [hm] at h; cases h
      | ok bb =>
          rw [hm] at h
          cases bb with
          | false =>
              replace h : (Except.ok false : Except PyError Bool) = .ok b := h
              cases h
              refine ⟨fun hfalse => (nomatch hfalse), fun hall => ?_⟩
              exfalso
              have := hall r (List.mem_cons_self r rs)
              rw [hm] at this
              cases this
          | true =>
              replace h : matchesAll env rs t = .ok b := h
              rw [ih t b h]
              constructor
              · intro hall r' hr'
                rcases List.mem_cons.mp hr' with h' | h'
                · subst h'; exact hm
                · exact hall r' h'
              · intro hall r' hr'
                exact hall r' (List.mem_cons_of_mem _ hr')

theorem filterMatching_sound (env : PyEnv) (rules : List Rule) :
    ∀ (ts F : List Track), filterMatching env rules ts = .ok F →
    ∀ t, (t ∈ F ↔ t ∈ ts ∧ matchesAll env rules t = .ok true) := by
  intro ts
  induction ts with
  | nil =>
      intro F h t
      replace h : (Except.ok [] : Except PyError (List Track)) = .ok F := h
      cases h
      simp
  | cons x xs ih =>
      intro F h t
      replace h : ((match matchesAll env rules x with
          | .error e => .error e
          | .ok b =>
              match filterMatching env rules xs with
              | .error e => .error e
              | .ok rest => .ok (if b then x :: rest else rest) :
            Except PyError (List Track))) = .ok F := h
      cases hm : matchesAll env rules x with
      | error e => rw [hm] at h; cases h
      | ok b =>
          rw [hm] at h
          cases hf : filterMatching env rules xs with
          | error e => rw [hf] at h; cases h
          | ok rest =>
              rw [hf] at h
              replace h : (Except.ok (if b then x :: rest else rest) :
                  Except PyError (List Track)) = .ok F := h
              cases h
              cases b with
              | false =>
                  rw [if_neg (by simp)]
                  rw [ih rest hf t]
                  constructor
                  · rintro ⟨hmem, hall⟩
                    exact ⟨List.mem_cons_of_mem _ hmem, hall⟩
                  · rintro ⟨hmem, hall⟩
                    rcases List.mem_cons.mp hmem with h' | h'
                    · subst h'; rw [hall] at hm; cases hm
                    · exact ⟨h', hall⟩
              | true =>
                  rw [if_pos rfl]
                  constructor
                  · intro hmem
                    rcases List.mem_cons.mp hmem with h' | h'
                    · subst h'; exact ⟨List.mem_cons_self _ _, hm⟩
                    · rcases (ih rest hf t).mp h' with ⟨hmem', hall⟩
                      exact ⟨List.mem_cons_of_mem _ hmem', hall⟩
                  · rintro ⟨hmem, hall⟩
                    rcases List.mem_cons.mp hmem with h' | h'
                    · subst h'; exact List.mem_cons_self _ _
                    · exact List.mem_cons_of_mem _ ((ih rest hf t).mpr ⟨h', hall⟩)

theorem filterMatching_defined (env : PyEnv) (rules : List Rule) :
    ∀ (ts F : List Track), filterMatching env rules ts = .ok F →
    ∀ t ∈ ts, ∃ b, matchesAll env rules t = .ok b := by
  intro ts
  induction ts with
  | nil => intro F _ t ht; cases ht
  | cons x xs ih =>
      intro F h t ht
      replace h : ((match matchesAll env rules x with
          | .error e => .error e
          | .ok b =>
              match filterMatching env rules xs with
              | .error e => .error e
              | .ok rest => .ok (if b then x :: rest else rest) :
            Except PyError (List Track))) = .ok F := h
      cases hm : matchesAll env rules x with
      | error e => rw [hm] at h; cases h
      | ok b =>
          rw [hm] at h
          cases hf : filterMatching env rules xs with
          | error e => rw [hf] at h; cases h
          | ok rest =>
              rcases List.mem_cons.mp ht with h' | h'
              · subst h'; exact ⟨b, hm⟩
              · exact ih rest hf t h'

theorem filterMatching_nil_rules (env : PyEnv) :
    ∀ ts : List Track, filterMatching env [] ts = .ok ts := by
  intro ts
  induction ts with
  | nil => rfl
  | cons x xs ih =>
      have e : filterMatching env [] (x :: xs) =
          ((match filterMatching env [] xs with
            | .error e => .error e
            | .ok rest => .ok (x :: rest) : Except PyError (List Track))) := rfl
      rw [e, ih]

theorem findMatchingTracks_ok (env : PyEnv) (rules : List Rule)
    (tracks L : List Track) (h : findMatchingTracks env rules tracks = .ok L) :
    ∃ F, filterMatching env rules tracks = .ok F ∧ L = sortTracks F := by
  unfold findMatchingTracks at h
  cases hf : filterMatching env rules tracks with
  | error e => rw [hf] at h; cases h
  | ok F =>
      rw [hf] at h
      replace h := Except.ok.inj h
      exact ⟨F, rfl, h.symm⟩

/-- C1: the claim says a NumberRule with operator `<=` and threshold v
matches iff the attribute value is ≤ v.  The source instead binds `'<='`
to `operator.ge` (mpdspl.py:118): for the rule `le<=#30#` a track with
attribute `"40"` matches although 40 ≤ 30 is false, and a track with
attribute `"20"` does not match although 20 ≤ 30 holds. -/
theorem numberRule_le_bound_to_ge :
    getRule env0 "le<=#30#" = .ok (Rule.number "Time" "<=" [] false (mkRat 30 1))
    ∧ ruleMatch env0 (Rule.number "Time" "<=" [] false (mkRat 30 1))
        { time := "40" } = .ok true
    ∧ ¬ ((40 : ℚ) ≤ 30)
    ∧ ruleMatch env0 (Rule.number "Time" "<=" [] false (mkRat 30 1))
        { time := "20" } = .ok false
    ∧ ((20 : ℚ) ≤ 30) :=
  ⟨rfl, rfl, by decide, rfl, by decide⟩

/-- C2: the claim says a TimeDeltaRule returns false (without raising) on
a track whose timestamp is unparseable.  In `TimeDeltaRule.__match__`
(mpdspl.py:160-167) only the ISO `strptime` is inside the `try`; the
fallback `fromtimestamp(float(value))` raises an uncaught `ValueError`
when the value is not a float either — for rule `mt<%3days%` and a track
with `mtime = "garbage"` the match raises instead of returning false. -/
theorem timeDeltaRule_unparseable_timestamp_raises :
    getRule env0 "mt<%3days%"
      = .ok (Rule.timeDelta "mtime" "<" [] false (mkRat 259200 1) 0)
    ∧ ruleMatch env0 (Rule.timeDelta "mtime" "<" [] false (mkRat 259200 1) 0)
        { mtime := "garbage" } = .error .valueError :=
  ⟨rfl, rfl⟩

/-- C3 (counterexample): the claim says an operator invalid for the rule
kind makes construction fail at parse time.  The rule string `ar!#30#`
pairs the Regex-only operator `!` with the Number delimiter `#`, yet
`RuleFactory.getRule` constructs a NumberRule without error: no
constructor checks the operator against its `OPERATORS` table. -/
theorem invalid_operator_constructs_successfully :
    getRule env0 "ar!#30#" = .ok (Rule.number "Artist" "!" [] false (mkRat 30 1)) :=
  rfl

/-- C3 (amended): an operator invalid for the kind is accepted at
construction and the failure is deferred to match time: (1) matching a
NumberRule whose operator is not in `NumberRule.OPERATORS` raises
`KeyError` from the `getOperator` lookup; (2) for a `#`-delimited rule
string, construction succeeds exactly when the key resolves and the value
parses as a float — the operator text plays no role. -/
theorem invalid_operator_deferred_to_match_time :
    (∀ (env : PyEnv) (key op : String) (flags : List Char) (neg : Bool) (v : ℚ)
        (t : Track) (attr : String),
        numberOpTable op = none →
        trackGetattr t (lowerStr key) = some attr →
        ruleMatch env (Rule.number key op flags neg v) t = .error (.keyError op))
    ∧ (∀ (env : PyEnv) (s : String) (rr : RawRule),
        parseRaw s.toList = some rr → rr.delim = '#' →
        ((getRule env s).isOk ↔
          (resolveKey (String.mk rr.key)).isSome
            ∧ (parseFloat (String.mk rr.value)).isSome)) := by
  constructor
  · intro env key op flags neg v t attr hop hattr
    simp only [ruleMatch, Rule.key, Rule.neg, ruleKindMatch, numberMatchValue, hattr, hop]
  · intro env s rr hp hd
    obtain ⟨k, o, dl, vl, fl⟩ := rr
    simp only at hd
    subst hd
    simp only [getRule, hp]
    cases hk : resolveKey (String.mk k) with
    | none =>
        simp only [numberRuleMk, abstractInit, hk, Except.isOk, Except.bind]
        refine iff_of_false ?_ ?_
        · intro hfalse; exact (nomatch hfalse)
        · rintro ⟨h1, _⟩; exact (nomatch h1)
    | some ck =>
        cases hv : parseFloat (String.mk vl) with
        | none =>
            simp only [numberRuleMk, abstractInit, hk, hv, Except.isOk, Except.bind]
            refine iff_of_false ?_ ?_
            · intro hfalse; exact (nomatch hfalse)
            · rintro ⟨_, h2⟩; exact (nomatch h2)
        | some q =>
            simp only [numberRuleMk, abstractInit, hk, hv, Except.isOk, Except.bind]
            exact iff_of_true rfl ⟨rfl, rfl⟩

/-- C3 (witness): the deferred failure and the operator-independent
construction at the concrete counterexample input. -/
theorem invalid_operator_deferred_witness :
    ruleMatch env0 (Rule.number "Artist" "!" [] false (mkRat 30 1))
      { artist := "5" } = .error (.keyError "!")
    ∧ ((getRule env0 "ar!#30#").isOk ↔
        (resolveKey (String.mk ['a', 'r'])).isSome
          ∧ (parseFloat (String.mk ['3', '0'])).isSome) :=
  ⟨invalid_operator_deferred_to_match_time.1 env0 "Artist" "!" [] false (mkRat 30 1)
      { artist := "5" } "5" rfl rfl,
    invalid_operator_deferred_to_match_time.2 env0 "ar!#30#"
      ⟨['a', 'r'], ['!'], '#', ['3', '0'], []⟩ rfl rfl⟩

/-- C7: for every rule with the `n` flag (`negate = true`) and every
track, `AbstractRule.match` (mpdspl.py:78-85) returns the boolean
negation of the kind-specific base match, applied after the kind's own
comparison (and hence not at all when the base match raises). -/
theorem negate_flag_inverts_base :
    ∀ (env : PyEnv) (r : Rule) (t : Track), r.neg = true →
      ruleMatch env r t = (ruleBaseMatch env r t).map (fun b => !b) := by
  intro env r t h
  unfold ruleMatch ruleBaseMatch
  cases trackGetattr t (lowerStr r.key) with
  | none => rfl
  | some attr =>
      show (match ruleKindMatch env r attr with
          | .error e => .error e
          | .ok b => Except.ok (if r.neg then !b else b))
        = Except.map (fun b => !b) (ruleKindMatch env r attr)
      cases ruleKindMatch env r attr with
      | error e => rfl
      | ok b => simp [h, Except.map]

/-- C7 (witness): a negated NumberRule built from the flag list `['n']`. -/
theorem negate_flag_inverts_base_witness :
    ruleMatch env0 (Rule.number "Time" ">=" ['n'] true (mkRat 30 1)) { time := "40" }
      = (ruleBaseMatch env0 (Rule.number "Time" ">=" ['n'] true (mkRat 30 1))
          { time := "40" }).map (fun b => !b) :=
  negate_flag_inverts_base env0 (Rule.number "Time" ">=" ['n'] true (mkRat 30 1))
    { time := "40" } rfl

/-- C8: a NumberRule with value 30 and operator `>=` (from `le>=#30#`)
matches a track whose attribute is `"30"`; an empty (or never-set, hence
empty-initialized) attribute is coerced to 0 by `NumberRule.__match__`
before the float comparison, and `0 >= 30` excludes the track.  The last
conjunct states the coercion in general: on an empty attribute the chosen
comparison is applied to `0`. -/
theorem numberRule_empty_coerces_zero :
    getRule env0 "le>=#30#" = .ok (Rule.number "Time" ">=" [] false (mkRat 30 1))
    ∧ ruleMatch env0 (Rule.number "Time" ">=" [] false (mkRat 30 1))
        { time := "30" } = .ok true
    ∧ ruleMatch env0 (Rule.number "Time" ">=" [] false (mkRat 30 1))
        emptyTrack = .ok false
    ∧ (∀ (env : PyEnv) (key op : String) (flags : List Char) (v : ℚ)
        (t : Track) (f : ℚ → ℚ → Bool),
        trackGetattr t (lowerStr key) = some "" →
        numberOpTable op = some f →
        ruleMatch env (Rule.number key op flags false v) t = .ok (f 0 v)) := by
  refine ⟨rfl, rfl, rfl, ?_⟩
  intro env key op flags v t f hattr hop
  simp only [ruleMatch, Rule.key, Rule.neg, ruleKindMatch, numberMatchValue, hattr, hop,
    if_pos rfl, Bool.not_false, if_neg]
  rfl

/-- C8 (witness): the general empty-attribute coercion applied at the
concrete rule `le>=#30#` and the all-empty track. -/
theorem numberRule_empty_coerces_zero_witness :
    ruleMatch env0 (Rule.number "Time" ">=" [] false (mkRat 30 1)) emptyTrack
      = .ok ((fun a b => decide (b ≤ a)) 0 (mkRat 30 1)) :=
  numberRule_empty_coerces_zero.2.2.2 env0 "Time" ">=" [] (mkRat 30 1) emptyTrack
    (fun a b => decide (b ≤ a)) rfl rfl

/-- C4: evaluating a concatenated ruleset is the intersection of the
separate evaluations; a track is included iff it matches every rule; the
empty ruleset matches every track. -/
theorem ruleset_and_composition :
    (∀ (env : PyEnv) (r1 r2 : List Rule) (tracks L1 L2 L12 : List Track),
        findMatchingTracks env r1 tracks = .ok L1 →
        findMatchingTracks env r2 tracks = .ok L2 →
        findMatchingTracks env (r1 ++ r2) tracks = .ok L12 →
        ∀ t, t ∈ L12 ↔ t ∈ L1 ∧ t ∈ L2)
    ∧ (∀ (env : PyEnv) (rules : List Rule) (tracks L : List Track),
        findMatchingTracks env rules tracks = .ok L →
        ∀ t, t ∈ L ↔ t ∈ tracks ∧ ∀ r ∈ rules, ruleMatch env r t = .ok true)
    ∧ (∀ (env : PyEnv) (tracks : List Track),
        findMatchingTracks env [] tracks = .ok (sortTracks tracks)
        ∧ ∀ t, (t ∈ sortTracks tracks ↔ t ∈ tracks)) := by
  have key : ∀ (env : PyEnv) (rules : List Rule) (tracks L : List Track),
      findMatchingTracks env rules tracks = .ok L →
      ∀ t, t ∈ L ↔ t ∈ tracks ∧ ∀ r ∈ rules, ruleMatch env r t = .ok true := by
    intro env rules tracks L h t
    obtain ⟨F, hF, hL⟩ := findMatchingTracks_ok env rules tracks L h
    subst hL
    rw [mem_sortTracks, filterMatching_sound env rules tracks F hF t]
    constructor
    · rintro ⟨hmem, hall⟩
      exact ⟨hmem, (matchesAll_true_iff env rules t true hall).mp rfl⟩
    · rintro ⟨hmem, hall⟩
      refine ⟨hmem, ?_⟩
      obtain ⟨b, hb⟩ := filterMatching_defined env rules tracks F hF t hmem
      have hbt := (matchesAll_true_iff env rules t b hb).mpr hall
      rw [hbt] at hb
      exact hb
  refine ⟨?_, key, ?_⟩
  · intro env r1 r2 tracks L1 L2 L12 h1 h2 h12 t
    rw [key env (r1 ++ r2) tracks L12 h12 t, key env r1 tracks L1 h1 t,
      key env r2 tracks L2 h2 t]
    constructor
    · rintro ⟨hm, hall⟩
      exact ⟨⟨hm, fun r hr => hall r (List.mem_append_left _ hr)⟩,
        ⟨hm, fun r hr => hall r (List.mem_append_right _ hr)⟩⟩
    · rintro ⟨⟨hm, ha1⟩, ⟨_, ha2⟩⟩
      refine ⟨hm, fun r hr => ?_⟩
      rcases List.mem_append.mp hr with h | h
      · exact ha1 r h
      · exact ha2 r h
  · intro env tracks
    constructor
    · unfold findMatchingTracks
      rw [filterMatching_nil_rules env tracks]
    · intro t
      exact mem_sortTracks

/-- C4 (witness): with `Time >= 10` as R1 and `Time < 30` as R2 over a
two-track database, the concatenated evaluation at the matching track. -/
theorem ruleset_and_composition_witness :
    mkTT "A" "20" ∈ [mkTT "A" "20"]
      ↔ mkTT "A" "20" ∈ [mkTT "A" "20"]
        ∧ mkTT "A" "20" ∈ [mkTT "A" "20", mkTT "B" "5"] :=
  ruleset_and_composition.1 env0
    [Rule.number "Time" ">=" [] false (mkRat 10 1)]
    [Rule.number "Time" "<" [] false (mkRat 30 1)]
    [mkTT "A" "20", mkTT "B" "5"] [mkTT "A" "20"] [mkTT "A" "20", mkTT "B" "5"]
    [mkTT "A" "20"] rfl rfl rfl (mkTT "A" "20")

/-- C5: the evaluated sequence is a stable sort of the matching tracks by
the concatenation artist++album++title, case-sensitively and
lexicographically: the result is the stable sort of the filtered list, a
permutation of it, sorted under the key order, with equal-key pairs
keeping their database order; the claim's example pair sorts with album
before title, and the extra conjunct shows case sensitivity
(`'B' < 'a'`). -/
theorem result_ordering_stable_sort :
    (∀ (env : PyEnv) (rules : List Rule) (tracks F L : List Track),
        filterMatching env rules tracks = .ok F →
        findMatchingTracks env rules tracks = .ok L →
        L = sortTracks F
        ∧ L.Perm F
        ∧ List.Sorted trackLe L
        ∧ (∀ a b, sortKey a = sortKey b → [a, b].Sublist F → [a, b].Sublist L))
    ∧ sortTracks [mkT "A" "Z" "M", mkT "A" "A" "Z"]
        = [mkT "A" "A" "Z", mkT "A" "Z" "M"]
    ∧ sortTracks [mkT "a" "" "", mkT "B" "" ""]
        = [mkT "B" "" "", mkT "a" "" ""] := by
  refine ⟨?_, rfl, rfl⟩
  intro env rules tracks F L hF hL
  obtain ⟨F', hF', hLS⟩ := findMatchingTracks_ok env rules tracks L hL
  have hFF : F' = F := Except.ok.inj (hF'.symm.trans hF)
  subst hFF
  subst hLS
  refine ⟨rfl, List.perm_insertionSort trackLe F',
    List.sorted_insertionSort trackLe F', ?_⟩
  intro a b hk hsub
  exact List.pair_sublist_insertionSort (trackLe_of_sortKey_eq hk) hsub

/-- C5 (witness): two distinct tracks with equal sort keys keep their
database order through the evaluation of the empty ruleset. -/
theorem result_ordering_stable_sort_witness :
    [({ file := "f1" } : Track), ({ file := "f2" } : Track)].Sublist
      (sortTracks [({ file := "f1" } : Track), ({ file := "f2" } : Track)]) :=
  (result_ordering_stable_sort.1 env0 []
      [({ file := "f1" } : Track), ({ file := "f2" } : Track)]
      [({ file := "f1" } : Track), ({ file := "f2" } : Track)]
      (sortTracks [({ file := "f1" } : Track), ({ file := "f2" } : Track)])
      rfl rfl).2.2.2
    ({ file := "f1" } : Track) ({ file := "f2" } : Track) rfl (List.Sublist.refl _)

theorem stampMatchValue_parsed (env : PyEnv) (op : String) (v : ℚ) (s : String)
    (q : ℚ) (h : parseFloat s = some q) :
    stampMatchValue env op v s = (match ordOpTable op with
      | none => .error (.keyError op)
      | some f => .ok (f (env.mktime (civilFromDays (tsDayNumber q))) v)) := by
  unfold stampMatchValue
  rw [h]

/-- C6: for every environment whose `mktime` is strictly monotone on
genuine dates (true of the C library for any time zone, since consecutive
local midnights are 23–25 hours apart), a TimeStampRule compares the
track's epoch timestamp truncated to its UTC day: (1) two track values on
the same UTC day produce the same match result for every operator and
stored value; (2) `mt<@2010-01-02@` builds the rule with
`mktime(2010-01-02)`; a track at exactly midnight UTC 2010-01-02
(epoch 1262390400) does not match, while 2010-01-01 23:59:59 UTC
(epoch 1262390399) matches. -/
theorem timeStampRule_day_truncation :
    ∀ env : PyEnv,
      (∀ d1 d2 : Date, ValidDate d1 → ValidDate d2 →
          (dateLt d1 d2 ↔ env.mktime d1 < env.mktime d2)) →
      (∀ (op : String) (v : ℚ) (s1 s2 : String) (q1 q2 : ℚ),
          parseFloat s1 = some q1 → parseFloat s2 = some q2 →
          tsDayNumber q1 = tsDayNumber q2 →
          stampMatchValue env op v s1 = stampMatchValue env op v s2)
      ∧ getRule env "mt<@2010-01-02@"
          = .ok (Rule.timeStamp "mtime" "<" [] false (env.mktime ⟨2010, 1, 2⟩))
      ∧ ruleMatch env (Rule.timeStamp "mtime" "<" [] false (env.mktime ⟨2010, 1, 2⟩))
          { mtime := "1262390400" } = .ok false
      ∧ ruleMatch env (Rule.timeStamp "mtime" "<" [] false (env.mktime ⟨2010, 1, 2⟩))
          { mtime := "1262390399" } = .ok true := by
  intro env hm
  refine ⟨?_, rfl, ?_, ?_⟩
  · intro op v s1 s2 q1 q2 h1 h2 h3
    rw [stampMatchValue_parsed env op v s1 q1 h1,
      stampMatchValue_parsed env op v s2 q2 h2, h3]
  · have e : ruleMatch env (Rule.timeStamp "mtime" "<" [] false (env.mktime ⟨2010, 1, 2⟩))
        { mtime := "1262390400" }
        = .ok (decide (env.mktime ⟨2010, 1, 2⟩ < env.mktime ⟨2010, 1, 2⟩)) := rfl
    rw [e, decide_eq_false (lt_irrefl _)]
  · have e : ruleMatch env (Rule.timeStamp "mtime" "<" [] false (env.mktime ⟨2010, 1, 2⟩))
        { mtime := "1262390399" }
        = .ok (decide (env.mktime ⟨2010, 1, 1⟩ < env.mktime ⟨2010, 1, 2⟩)) := rfl
    have hlt : env.mktime ⟨2010, 1, 1⟩ < env.mktime ⟨2010, 1, 2⟩ :=
      (hm ⟨2010, 1, 1⟩ ⟨2010, 1, 2⟩ (by decide) (by decide)).mp (by decide)
    rw [e, decide_eq_true hlt]

/-- C6 (witness): `env0.mktime` encodes dates as `372·y + 31·m + d`, which
is strictly monotone on genuine dates; the matching example evaluates. -/
theorem timeStampRule_day_truncation_witness :
    ruleMatch env0 (Rule.timeStamp "mtime" "<" [] false (env0.mktime ⟨2010, 1, 2⟩))
      { mtime := "1262390399" } = .ok true := by
  have hm : ∀ d1 d2 : Date, ValidDate d1 → ValidDate d2 →
      (dateLt d1 d2 ↔ env0.mktime d1 < env0.mktime d2) := by
    intro d1 d2 h1 h2
    have hc : env0.mktime d1 < env0.mktime d2 ↔
        372 * d1.year + 31 * (d1.month : Int) + (d1.day : Int)
          < 372 * d2.year + 31 * (d2.month : Int) + (d2.day : Int) := Int.cast_lt
    rw [hc]
    have h1' : 1 ≤ d1.month ∧ d1.month ≤ 12 ∧ 1 ≤ d1.day
        ∧ d1.day ≤ daysInMonth d1.year d1.month := h1
    have h2' : 1 ≤ d2.month ∧ d2.month ≤ 12 ∧ 1 ≤ d2.day
        ∧ d2.day ≤ daysInMonth d2.year d2.month := h2
    obtain ⟨a1, b1, c1, e1⟩ := h1'
    obtain ⟨a2, b2, c2, e2⟩ := h2'
    have f1 : d1.day ≤ 31 := le_trans e1 (daysInMonth_le _ _)
    have f2 : d2.day ≤ 31 := le_trans e2 (daysInMonth_le _ _)
    unfold dateLt
    omega
  exact (timeStampRule_day_truncation env0 hm).2.2.2

/-- C9: the mismatched-delimiter rule `ar=(Fred/` fails with the
`CustomException` of `RuleFactory.getRule`; and in general every parse the
grammar accepts brackets the (non-empty) value between two identical
delimiter characters drawn from `/%@#`, with the flags being the word run
after the closing delimiter. -/
theorem delimiters_must_be_identical :
    getRule env0 "ar=(Fred/" = .error (.custom "Could not parse rule 'ar=(Fred/'")
    ∧ (∀ (s : List Char) (rr : RawRule), parseRaw s = some rr →
        rr.delim ∈ DELIMS ∧ rr.value ≠ [] ∧
        ∃ rest, s = rr.key ++ rr.op ++ rr.delim :: rr.value ++ rr.delim :: rest
          ∧ rr.flags = rest.takeWhile wordChar) :=
  ⟨rfl, fun _ _ h => parseRaw_shape h⟩

/-- C9 (witness): the bracketing decomposition of a parse that succeeds. -/
theorem delimiters_must_be_identical_witness :
    '/' ∈ DELIMS ∧ (['F', 'r', 'e', 'd'] : List Char) ≠ [] ∧
    ∃ rest, "ar=/Fred/i".toList
        = ['a', 'r'] ++ ['='] ++ '/' :: ['F', 'r', 'e', 'd'] ++ '/' :: rest
      ∧ ['i'] = rest.takeWhile wordChar :=
  delimiters_must_be_identical.2 "ar=/Fred/i".toList
    ⟨['a', 'r'], ['='], '/', ['F', 'r', 'e', 'd'], ['i']⟩ rfl

theorem extra_find_last (k v : String) : ∀ l : List (String × String),
    ((l.filter (fun p => p.1 != k)) ++ [(k, v)]).find? (fun p => p.1 == k)
      = some (k, v) := by
  intro l
  induction l with
  | nil => simp [List.find?_cons]
  | cons p l ih =>
      by_cases hp : p.1 = k
      · simp only [List.filter_cons]
        rw [if_neg (by simp [hp])]
        exact ih
      · simp only [List.filter_cons]
        rw [if_pos (by simp [hp]), List.cons_append, List.find?_cons]
        have hb : (p.1 == k) = false := by simp [hp]
        simp only [hb]
        exact ih

/-- C10: `Track.__init__` starts from a track whose fifteen canonical
attributes are all the empty string, then fills in the entry's fields in
order, where a list value is stored as its first element, a field named
`last-modified` is stored as `mtime`, attribute names are lowercased, and
a stored value is retrievable under its (lowercased) name. -/
theorem track_init_normalizes :
    (trackMk [] = some emptyTrack
      ∧ ∀ p ∈ KEYWORDS, trackGetattr emptyTrack (lowerStr p.2) = some "")
    ∧ (∀ (t : Track) (k s : String) (l : List String),
        applyField t (k, .list (s :: l)) = applyField t (k, .str s))
    ∧ (∀ (t : Track) (v : PyVal),
        applyField t ("last-modified", v) = applyField t ("mtime", v))
    ∧ (∀ (t : Track) (k s : String),
        applyField t (k, .str s)
          = some (trackSetattr t
              (lowerStr (if k = "last-modified" then "mtime" else k)) s))
    ∧ (∀ (t : Track) (k v : String),
        trackGetattr (trackSetattr t k v) k = some v) := by
  refine ⟨⟨rfl, by decide⟩, ?_, ?_, ?_, ?_⟩
  · intro t k s l
    rfl
  · intro t v
    rcases v with s | l
    · rfl
    · rcases l with _ | ⟨s, l⟩ <;> rfl
  · intro t k s
    rfl
  · intro t k v
    by_cases h1 : k = "artist"
    · subst h1; simp [trackSetattr, trackGetattr]
    ·
      by_cases h2 : k = "album"
      · subst h2; simp [trackSetattr, trackGetattr]
      ·
        by_cases h3 : k = "title"
        · subst h3; simp [trackSetattr, trackGetattr]
        ·
          by_cases h4 : k = "track"
          · subst h4; simp [trackSetattr, trackGetattr]
          ·
            by_cases h5 : k = "genre"
            · subst h5; simp [trackSetattr, trackGetattr]
            ·
              by_cases h6 : k = "date"
              · subst h6; simp [trackSetattr, trackGetattr]
              ·
                by_cases h7 : k = "time"
                · subst h7; simp [trackSetattr, trackGetattr]
                ·
                  by_cases h8 : k = "file"
                  · subst h8; simp [trackSetattr, trackGetattr]
                  ·
                    by_cases h9 : k = "key"
                    · subst h9; simp [trackSetattr, trackGetattr]
                    ·
                      by_cases h10 : k = "mtime"
                      · subst h10; simp [trackSetattr, trackGetattr]
                      ·
                        by_cases h11 : k = "rating"
                        · subst h11; simp [trackSetattr, trackGetattr]
                        ·
                          by_cases h12 : k = "ratingar"
                          · subst h12; simp [trackSetattr, trackGetattr]
                          ·
                            by_cases h13 : k = "ratingal"
                            · subst h13; simp [trackSetattr, trackGetattr]
                            ·
                              by_cases h14 : k = "ratingge"
                              · subst h14; simp [trackSetattr, trackGetattr]
                              ·
                                by_cases h15 : k = "playcount"
                                · subst h15; simp [trackSetattr, trackGetattr]
                                ·
                                  simp [trackSetattr, trackGetattr, h1, h2, h3, h4, h5, h6, h7, h8, h9, h10, h11, h12, h13, h14, h15, extra_find_last]

/-- C10 (witness): the canonical `Artist` attribute of the freshly
initialized track is the empty string. -/
theorem track_init_normalizes_witness :
    trackGetattr emptyTrack (lowerStr "Artist") = some "" :=
  track_init_normalizes.1.2 ("ar", "Artist") (by decide)
